import Mathlib

/-!
Verification of the `fiwia` x86-64 code generator (`gen_asm.py`).

The generator is shallowly embedded: the register catalog, the register
store, the operand model, both emitters (standalone SysV assembly and GCC
extended inline assembly) and the routine templates needed by the claims
are translated into pure Lean functions.  Emitted output is modelled as the
list of printed lines; Python exceptions are modelled either with `Except`
(for the explicit `raise ValueError` branches of the templates) or with a
sticky `err` flag on the emitter state (for internal errors that the
analysed runs never hit, which the theorems check by proving `err = false`).
-/

namespace Fiwia

/-! ### Register catalog (`RegList`, `SCRATCH_REGS`, `ALL_REGS`, …) -/

def SCRATCH_REG_NAMES : List String :=
  ["rax", "rdi", "rsi", "rdx", "rcx", "r8", "r9", "r10", "r11"]

def CALLEE_SAVED_REG_NAMES : List String :=
  ["rbx", "r12", "r13", "r14", "r15"]

def ALL_REG_NAMES : List String := SCRATCH_REG_NAMES ++ CALLEE_SAVED_REG_NAMES

def SYSV_ABI_ARG_REG_NAMES : List String :=
  ["rdi", "rsi", "rdx", "rcx", "r8", "r9"]

def name_by_index (i : Nat) : String := ALL_REG_NAMES.getD i ""

def index_by_name (nm : String) : Nat := ALL_REG_NAMES.indexOf nm

/-! ### Decimal rendering of numbers (Python f-string interpolation).
`natRepr` renders a natural number in decimal; it is written with explicit
fuel so that it reduces inside the kernel. -/

def natReprCore : Nat → Nat → List Char → List Char
  | 0, _, acc => acc
  | fuel + 1, n, acc =>
    if n = 0 then acc
    else natReprCore fuel (n / 10) (Nat.digitChar (n % 10) :: acc)

def natRepr (n : Nat) : String :=
  if n = 0 then "0" else String.mk (natReprCore (n + 1) n [])

def intRepr (i : Int) : String :=
  if i < 0 then "-" ++ natRepr (-i).toNat else natRepr i.toNat

/-! ### Register operands (`RealReg` / `FakeReg`) -/

inductive Reg where
  | real (index : Nat)
  | fake (keyword : String)
deriving DecidableEq, Repr

/-- Python lstrip with the percent-r character set: drop leading percent and r characters. -/
def lstripPercentR (s : String) : String :=
  String.mk (s.data.dropWhile (fun c => c == '%' || c == 'r'))

/-- Python `str.lstrip('%')`. -/
def lstripPercent (s : String) : String :=
  String.mk (s.data.dropWhile (fun c => c == '%'))

/-- Python rstrip with the x character set: drop trailing x characters. -/
def rstripX (s : String) : String :=
  String.mk ((s.data.reverse.dropWhile (fun c => c == 'x')).reverse)

/-- Python `str.isdigit()` (restricted to ASCII, as in the register names). -/
def isdigitStr (s : String) : Bool :=
  !s.data.isEmpty && s.data.all Char.isDigit

def strReg : Reg → String
  | .real i => "%" ++ name_by_index i
  | .fake kw => "![" ++ kw ++ "]"

/-- `RealReg.e_part` / `FakeReg.e_part`: 32-bit sub-register spelling. -/
def Reg.e_part : Reg → String
  | .real i =>
    let base_name := lstripPercentR (strReg (.real i))
    if isdigitStr base_name then "%r" ++ base_name ++ "d"
    else "%e" ++ base_name
  | .fake kw => "!k[" ++ kw ++ "]"

/-- `RealReg.l_part` / `FakeReg.l_part`: 8-bit sub-register spelling. -/
def Reg.l_part : Reg → String
  | .real i =>
    let base_name := lstripPercentR (strReg (.real i))
    if isdigitStr base_name then "%r" ++ base_name ++ "b"
    else
      if base_name.data.contains 'x' then "%" ++ rstripX base_name ++ "l"
      else "%" ++ base_name ++ "l"
  | .fake kw => "!b[" ++ kw ++ "]"

/-! ### Register store -/

structure RegStore where
  free_indices : List Nat
  writes : List Nat
  err : Bool
deriving DecidableEq, Repr

def mkRegStore (names : List String) : RegStore :=
  { free_indices := names.map index_by_name, writes := [], err := false }

/-- `RegStore._set_reg_mode` / `set_mode_by_name`: record a write (the Python
`writes` set is modelled as a duplicate-free list). -/
def RegStore.addWrite (st : RegStore) (index : Nat) (write : Bool) : RegStore :=
  if write then
    if index ∈ st.writes then st else { st with writes := st.writes ++ [index] }
  else st

def RegStore.set_mode_by_name (st : RegStore) (reg_name : String) (write : Bool) : RegStore :=
  st.addWrite (index_by_name reg_name) write

/-- `RegStore.take`: pop the last free index (`self.free_indices.pop(-1)`). -/
def RegStore.take (st : RegStore) (write : Bool) : RegStore × Nat :=
  match st.free_indices.getLast? with
  | none => ({ st with err := true }, 99)
  | some i =>
    (RegStore.addWrite { st with free_indices := st.free_indices.dropLast } i write, i)

/-- `RegStore.untake`: append the index back and re-sort. -/
def RegStore.untake (st : RegStore) (index : Nat) : RegStore :=
  { st with free_indices := (st.free_indices ++ [index]).insertionSort (· ≤ ·) }

/-- `RegStore.take_by_index` (`list.remove` raises if the index is absent). -/
def RegStore.take_by_index (st : RegStore) (index : Nat) (write : Bool) : RegStore × Nat :=
  if index ∈ st.free_indices then
    (RegStore.addWrite { st with free_indices := st.free_indices.erase index } index write,
      index)
  else ({ st with err := true }, index)

def RegStore.take_by_name (st : RegStore) (nm : String) (write : Bool) : RegStore × Nat :=
  st.take_by_index (index_by_name nm) write

def RegStore.clobbers (st : RegStore) : List String :=
  st.writes.map name_by_index

/-! ### Pointer operands -/

structure PointerReg where
  reg : Reg
  offset : Int
deriving DecidableEq, Repr

def strPointerReg (p : PointerReg) : String :=
  if p.offset ≠ 0 then intRepr (p.offset * 8) ++ "(" ++ strReg p.reg ++ ")"
  else "(" ++ strReg p.reg ++ ")"

def PointerReg.displace (p : PointerReg) (offset : Int) : PointerReg :=
  { reg := p.reg, offset := p.offset + offset }

/-! ### SysV function emitter (`SysvAbiFunctionEmitter`).
Printed output is collected in `lines`; the class-level label counter is a
field of the emitter (fresh per generated routine in the analysed runs). -/

structure SysvEm where
  reg_store : RegStore
  fixed_regs : List String
  arg_map : List String
  label_counter : Nat
  lines : List String
deriving DecidableEq, Repr

def SysvEm.fresh : SysvEm :=
  { reg_store := mkRegStore SCRATCH_REG_NAMES
    fixed_regs := []
    arg_map := SYSV_ABI_ARG_REG_NAMES
    label_counter := 0
    lines := [] }

def SysvEm.emit (em : SysvEm) (line : String) : SysvEm :=
  { em with lines := em.lines ++ [line] }

def SysvEm.add_fixed_reg (em : SysvEm) (reg_name : String) : SysvEm :=
  { em with fixed_regs := em.fixed_regs ++ [reg_name] }

def SysvEm.take_zero_reg (em : SysvEm) : SysvEm × Reg :=
  let (st, i) := em.reg_store.take true
  let reg : Reg := .real i
  ({ em with reg_store := st }.emit
    ("xorl " ++ reg.e_part ++ ", " ++ reg.e_part), reg)

def SysvEm.set_nargs (em : SysvEm) (nargs : Nat) : SysvEm :=
  let em := { em with arg_map := [] }
  let p := (List.range nargs).foldl
    (fun (p : SysvEm × List Nat) i =>
      let em := p.1
      let reg_name := SYSV_ABI_ARG_REG_NAMES.getD i ""
      if reg_name ∈ em.fixed_regs then
        let (st, r) := em.reg_store.take true
        let em := { em with reg_store := st, arg_map := em.arg_map ++ [name_by_index r] }
        let em := em.emit ("movq %" ++ reg_name ++ ", " ++ strReg (.real r))
        (em, p.2 ++ [r])
      else ({ em with arg_map := em.arg_map ++ [reg_name] }, p.2))
    (em, [])
  p.2.foldl (fun em r => { em with reg_store := em.reg_store.untake r }) p.1

def SysvEm.take_arg_reg (em : SysvEm) (index : Nat) (write : Bool)
    (into_reg_name : Option String) : SysvEm × Reg :=
  let reg_name := em.arg_map.getD index ""
  let should_move := reg_name ∈ em.fixed_regs ||
    (match into_reg_name with
     | some nm => nm != reg_name
     | none => false)
  if should_move then
    let (st, src) := em.reg_store.take_by_name reg_name false
    let (st, dst) :=
      match into_reg_name with
      | some nm => st.take_by_name nm true
      | none => st.take true
    let em := { em with reg_store := st }
    let em := em.emit ("movq " ++ strReg (.real src) ++ ", " ++ strReg (.real dst))
    ({ em with reg_store := em.reg_store.untake src }, .real dst)
  else
    let (st, r) := em.reg_store.take_by_name reg_name write
    ({ em with reg_store := st }, .real r)

def SysvEm.take_retval_reg (em : SysvEm) (_may_overwrite_taken : Bool) : SysvEm × Reg :=
  let (st, r) := em.reg_store.take_by_name "rax" true
  ({ em with reg_store := st }, .real r)

def SysvEm.write_retval (em : SysvEm) (src_reg : Reg) : SysvEm :=
  let em := { em with reg_store := em.reg_store.set_mode_by_name "rax" true }
  if strReg src_reg ≠ "%rax" then
    em.emit ("movq " ++ strReg src_reg ++ ", %rax")
  else em

def SysvEm.gen_label (em : SysvEm) : SysvEm × String :=
  let c := em.label_counter + 1
  ({ em with label_counter := c }, ".L" ++ natRepr c)

def SysvEm.label_here (em : SysvEm) (label : String) : SysvEm :=
  em.emit (label ++ ":")

/-! ### Inline-asm emitter (`InlineAsmEmitter`) -/

def REG_NAMES_TO_LETTERS : List (String × String) :=
  [("rax", "a"), ("rbx", "b"), ("rcx", "c"), ("rdx", "d"), ("rsi", "S"), ("rdi", "D")]

def letterOf (nm : String) : Option String :=
  (REG_NAMES_TO_LETTERS.find? (fun p => p.1 == nm)).map (·.2)

structure InlineEm where
  reg_store : RegStore
  args : List (Bool × String)
  retval : Option String
  retval_earlyclobber : Bool
  needs_zero_input : Bool
  label_counter : Nat
  lines : List String
  err : Bool
deriving DecidableEq, Repr

def InlineEm.fresh : InlineEm :=
  { reg_store := mkRegStore SCRATCH_REG_NAMES
    args := []
    retval := none
    retval_earlyclobber := false
    needs_zero_input := false
    label_counter := 0
    lines := []
    err := false }

/-- Python replace for a single-character pattern. -/
def replaceChar (s : String) (old : Char) (new : List Char) : String :=
  String.mk (s.data.flatMap (fun c => if c == old then new else [c]))

/-- The line transformation of `InlineAsmEmitter.emit`:
`line.replace('%', '%%').replace('!', '%')`. -/
def inlineTransform (line : String) : String :=
  replaceChar (replaceChar line '%' ['%', '%']) '!' ['%']

def InlineEm.emit (em : InlineEm) (line : String) : InlineEm :=
  { em with lines := em.lines ++ [inlineTransform line] }

def InlineEm.add_fixed_reg (em : InlineEm) (_reg_name : String) : InlineEm := em

def InlineEm.set_nargs (em : InlineEm) (_nargs : Nat) : InlineEm := em

def InlineEm.take_zero_reg (em : InlineEm) : InlineEm × Reg :=
  ({ em with needs_zero_input := true }, .fake "zero")

def InlineEm.take_arg_reg (em : InlineEm) (index : Nat) (write : Bool)
    (into_reg_name : Option String) : InlineEm × Reg :=
  let em := if em.args.length ≠ index then { em with err := true } else em
  ({ em with args := em.args ++ [(write, into_reg_name.getD "")] },
    .fake ("arg" ++ natRepr index))

def InlineEm.take_retval_reg (em : InlineEm) (may_overwrite_taken : Bool) :
    InlineEm × Reg :=
  ({ em with retval := some "", retval_earlyclobber := !may_overwrite_taken }, .fake "ret")

def InlineEm.write_retval (em : InlineEm) (src_reg : Reg) : InlineEm :=
  match src_reg with
  | .real i =>
    let nm := lstripPercent (strReg (.real i))
    if (letterOf nm).isSome then { em with retval := some nm }
    else ({ em with retval := some "" }).emit ("movq " ++ strReg (.real i) ++ ", ![ret]")
  | .fake kw =>
    ({ em with retval := some "" }).emit ("movq " ++ strReg (.fake kw) ++ ", ![ret]")

def InlineEm.gen_label (em : InlineEm) : InlineEm × String :=
  let c := em.label_counter + 1
  ({ em with label_counter := c }, ".L!=_" ++ natRepr c)

def InlineEm.label_here (em : InlineEm) (label : String) : InlineEm :=
  em.emit (label ++ ":")

/-! ### `InlineAsmEmitter.emit_epilogue`.
The `: outputs : inputs : clobbers` tail is built structurally: an output
operand is `(keyword, mode, letter, reg_name)`, an input operand is
`(keyword, letter, reg_name)`.  The printed strings are exactly
`[kw] "mode letter" (kw)` over these fields. -/

structure EpState where
  outputs : List (String × String × String × String)
  inputs : List (String × String × String)
  clobbers : List String
  err : Bool
deriving DecidableEq, Repr

def epAddOutput (st : EpState) (keyword reg_name : String) (is_read force_earlyclobber : Bool) :
    EpState :=
  let mode := if is_read then "+" else "="
  if reg_name = "" then
    let earlyclobber := force_earlyclobber
    let mode := if earlyclobber then mode ++ "&" else mode
    { st with outputs := st.outputs ++ [(keyword, mode, "r", reg_name)] }
  else
    let letter := (letterOf reg_name).getD "?"
    let lookup_failed := (letterOf reg_name).isNone
    if reg_name ∈ st.clobbers then
      { st with
        clobbers := st.clobbers.erase reg_name
        outputs := st.outputs ++ [(keyword, mode ++ "&", letter, reg_name)]
        err := st.err || lookup_failed }
    else
      let mode := if force_earlyclobber then mode ++ "&" else mode
      { st with
        outputs := st.outputs ++ [(keyword, mode, letter, reg_name)]
        err := st.err || lookup_failed }

def epAddInput (st : EpState) (keyword reg_name : String) : EpState :=
  if reg_name = "" then
    { st with inputs := st.inputs ++ [(keyword, "r", reg_name)] }
  else
    let letter := (letterOf reg_name).getD "?"
    let lookup_failed := (letterOf reg_name).isNone
    { st with
      inputs := st.inputs ++ [(keyword, letter, reg_name)]
      err := st.err || lookup_failed }

def emit_epilogue (em : InlineEm) : EpState :=
  let st : EpState := { outputs := [], inputs := [], clobbers := em.reg_store.clobbers,
                        err := false }
  let st := (em.args.enum.foldl
    (fun st (p : Nat × (Bool × String)) =>
      let is_written_to := p.2.1
      let reg_name := p.2.2
      let i := p.1
      let is_same_reg_as_retval := reg_name ≠ "" ∧ em.retval = some reg_name
      if is_written_to ∧ ¬is_same_reg_as_retval then
        epAddOutput st ("arg" ++ natRepr i) reg_name true false
      else
        epAddInput st ("arg" ++ natRepr i) reg_name)
    st)
  let st :=
    match em.retval with
    | some nm => epAddOutput st "ret" nm false em.retval_earlyclobber
    | none => st
  let st := if em.needs_zero_input then
    { st with inputs := st.inputs ++ [("zero", "r", "")] } else st
  { st with clobbers := (st.clobbers ++ ["cc", "memory"]).insertionSort (· ≤ ·) }

/-! ### The abstract emitter interface the routine templates are written
against (Python duck typing). -/

class EmitterOps (σ : Type) where
  add_fixed_reg : σ → String → σ
  set_nargs : σ → Nat → σ
  take_arg_reg : σ → Nat → Bool → Option String → σ × Reg
  take_zero_reg : σ → σ × Reg
  take_retval_reg : σ → Bool → σ × Reg
  write_retval : σ → Reg → σ
  emit : σ → String → σ
  gen_label : σ → σ × String
  label_here : σ → String → σ
  get_store : σ → RegStore
  set_store : σ → RegStore → σ

instance sysvEmitterOps : EmitterOps SysvEm where
  add_fixed_reg := SysvEm.add_fixed_reg
  set_nargs := SysvEm.set_nargs
  take_arg_reg := SysvEm.take_arg_reg
  take_zero_reg := SysvEm.take_zero_reg
  take_retval_reg := SysvEm.take_retval_reg
  write_retval := SysvEm.write_retval
  emit := SysvEm.emit
  gen_label := SysvEm.gen_label
  label_here := SysvEm.label_here
  get_store := SysvEm.reg_store
  set_store := fun em st => { em with reg_store := st }

instance inlineEmitterOps : EmitterOps InlineEm where
  add_fixed_reg := InlineEm.add_fixed_reg
  set_nargs := InlineEm.set_nargs
  take_arg_reg := InlineEm.take_arg_reg
  take_zero_reg := InlineEm.take_zero_reg
  take_retval_reg := InlineEm.take_retval_reg
  write_retval := InlineEm.write_retval
  emit := InlineEm.emit
  gen_label := InlineEm.gen_label
  label_here := InlineEm.label_here
  get_store := InlineEm.reg_store
  set_store := fun em st => { em with reg_store := st }

/-- `emitter.reg_store.take(write=...)` as done inside the templates. -/
def storeTake {σ : Type} [EmitterOps σ] (em : σ) (write : Bool) : σ × Reg :=
  let (st, i) := (EmitterOps.get_store em).take write
  (EmitterOps.set_store em st, .real i)

/-- `emitter.reg_store.take_by_name(name, write=...)` as done inside the templates. -/
def storeTakeByName {σ : Type} [EmitterOps σ] (em : σ) (nm : String) (write : Bool) :
    σ × Reg :=
  let (st, i) := (EmitterOps.get_store em).take_by_name nm write
  (EmitterOps.set_store em st, .real i)

/-- `emitter.reg_store.untake(reg)` as done inside the templates. -/
def storeUntake {σ : Type} [EmitterOps σ] (em : σ) (r : Reg) : σ :=
  match r with
  | .real i => EmitterOps.set_store em ((EmitterOps.get_store em).untake i)
  | .fake _ => em

/-! ### Routine templates -/

/-- `AORS_ADD` / `AORS_SUB` instruction-pair selectors. -/
structure AORS where
  ADDSUB : String
  ADCSBB : String
deriving DecidableEq, Repr

def AORS_ADD : AORS := { ADDSUB := "add", ADCSBB := "adc" }

def AORS_SUB : AORS := { ADDSUB := "sub", ADCSBB := "sbb" }

/-- The closing idiom shared by `FUNC_aors`, `FUNC_aors_masked`, `FUNC_aors_q`,
`FUNC_negate`, …: take the retval register, then emit the sbbq carry-to-mask idiom. -/
def retval_sbb_finish {σ : Type} [EmitterOps σ] (em : σ) : σ :=
  let (em, ret) := EmitterOps.take_retval_reg em true
  EmitterOps.emit em ("sbbq " ++ strReg ret ++ ", " ++ strReg ret)

/-- The body of the `FUNC_aors` loop for index `i`. -/
def aors_step {σ : Type} [EmitterOps σ] (aors : AORS) (a b : PointerReg) (reg_tmp : Reg)
    (em : σ) (i : Nat) : σ :=
  let em := EmitterOps.emit em
    ("movq " ++ strPointerReg (b.displace i) ++ ", " ++ strReg reg_tmp)
  if i ≠ 0 then
    EmitterOps.emit em
      (aors.ADCSBB ++ "q " ++ strReg reg_tmp ++ ", " ++ strPointerReg (a.displace i))
  else
    EmitterOps.emit em
      (aors.ADDSUB ++ "q " ++ strReg reg_tmp ++ ", " ++ strPointerReg (a.displace i))

/-- `FUNC_aors`: add / subtract two `n`-limb arrays, returning the carry mask. -/
def FUNC_aors {σ : Type} [EmitterOps σ] (em : σ) (n : Nat) (aors : AORS) : σ :=
  let (em, reg_a) := EmitterOps.take_arg_reg em 0 false none
  let (em, reg_b) := EmitterOps.take_arg_reg em 1 false none
  let (em, reg_tmp) := storeTake em true
  let a : PointerReg := { reg := reg_a, offset := 0 }
  let b : PointerReg := { reg := reg_b, offset := 0 }
  let em := (List.range n).foldl (aors_step aors a b reg_tmp) em
  retval_sbb_finish em

/-- The body of the `FUNC_aors_q` loop for index `i`. -/
def aors_q_step {σ : Type} [EmitterOps σ] (aors : AORS) (a : PointerReg) (reg_b : Reg)
    (zero : String) (label_done : Option String) (n : Nat) (em : σ) (i : Nat) : σ :=
  if i ≠ 0 then
    let em := EmitterOps.emit em
      (aors.ADCSBB ++ "q " ++ zero ++ ", " ++ strPointerReg (a.displace i))
    match label_done with
    | some l => if i ≠ n - 1 then EmitterOps.emit em ("jnc " ++ l) else em
    | none => em
  else
    EmitterOps.emit em
      (aors.ADDSUB ++ "q " ++ strReg reg_b ++ ", " ++ strPointerReg (a.displace i))

/-- `FUNC_aors_q`: add / subtract a single limb with carry propagation;
the `leaky` variant may emit an early-exit `jnc`. -/
def FUNC_aors_q {σ : Type} [EmitterOps σ] (em : σ) (n : Nat) (aors : AORS)
    (leaky : Bool) : σ :=
  let (em, reg_a) := EmitterOps.take_arg_reg em 0 false none
  let (em, reg_b) := EmitterOps.take_arg_reg em 1 false none
  let zero := "$0"
  let a : PointerReg := { reg := reg_a, offset := 0 }
  let (em, label_done) :=
    if leaky ∧ n > 2 then
      let (em, l) := EmitterOps.gen_label em
      (em, some l)
    else (em, none)
  let em := (List.range n).foldl (aors_q_step aors a reg_b zero label_done n) em
  let em :=
    match label_done with
    | some l => EmitterOps.label_here em l
    | none => em
  retval_sbb_finish em

/-- The body of the `FUNC_div_q` loop for index `i`. -/
def div_q_step {σ : Type} [EmitterOps σ] (a : PointerReg) (reg_m rax : Reg)
    (dst : Option PointerReg) (em : σ) (i : Nat) : σ :=
  let em := EmitterOps.emit em
    ("movq " ++ strPointerReg (a.displace i) ++ ", " ++ strReg rax)
  let em := EmitterOps.emit em ("divq " ++ strReg reg_m)
  match dst with
  | some d => EmitterOps.emit em
      ("movq " ++ strReg rax ++ ", " ++ strPointerReg (d.displace i))
  | none => em

/-- The shared tail of `FUNC_div_q` once the `operation` selector has been
validated (`dst = none` models the mod-only mode). -/
def div_q_core {σ : Type} [EmitterOps σ] (em : σ) (n : Nat) (reg_a reg_m : Reg)
    (dst : Option PointerReg) : σ :=
  let a : PointerReg := { reg := reg_a, offset := 0 }
  let (em, rax) := storeTakeByName em "rax" true
  let (em, rdx) := storeTakeByName em "rdx" true
  let em := EmitterOps.emit em ("xorl " ++ rdx.e_part ++ ", " ++ rdx.e_part)
  let em := (List.range n).reverse.foldl (div_q_step a reg_m rax dst) em
  EmitterOps.write_retval em rdx

/-- `FUNC_div_q`: divide an `n`-limb array by a single limb (quotient and/or
remainder); raises on an unknown `operation` selector. -/
def FUNC_div_q {σ : Type} [EmitterOps σ] (em : σ) (n : Nat) (operation : String) :
    Except String σ :=
  let em := EmitterOps.add_fixed_reg em "rax"
  let em := EmitterOps.add_fixed_reg em "rdx"
  let (em, reg_a) := EmitterOps.take_arg_reg em 0 false none
  let (em, reg_m) := EmitterOps.take_arg_reg em 1 false none
  if operation = "div" then
    let (em, reg_dst) := EmitterOps.take_arg_reg em 2 false none
    .ok (div_q_core em n reg_a reg_m (some { reg := reg_dst, offset := 0 }))
  else if operation = "mod" then
    .ok (div_q_core em n reg_a reg_m none)
  else
    .error "expected either \"div\" or \"mod\" as operation"

/-! ### Word-wise shifts (`cond_shr_words`, `cond_shl_words`, `dumb_*`,
`fancy_shift_words`, `shift_words_auto`, `FUNC_shift_words`).

The Python code passes a mutable emitter plus an `assign_callback` closure;
here both are threaded through an explicit state `τ`: `emitF` appends one
line, `cb st src_i dst_i cond` performs one conditional assignment. -/

def cond_shr_words {τ : Type} (n amount : Nat)
    (cb : τ → Option Nat → Nat → String → τ) (cond : String) (s : τ) : τ :=
  (List.range n).foldl
    (fun s i =>
      let src_i := i + amount
      if src_i ≥ n then cb s none i cond else cb s (some src_i) i cond)
    s

def cond_shl_words {τ : Type} (n amount : Nat)
    (cb : τ → Option Nat → Nat → String → τ) (cond : String) (s : τ) : τ :=
  (List.range n).reverse.foldl
    (fun s (i : Nat) =>
      let src_i : Int := (i : Int) - amount
      if src_i < 0 then cb s none i cond else cb s (some src_i.toNat) i cond)
    s

def dumb_shr_words {τ : Type} (emitF : τ → String → τ) (reg_b_str : String) (n : Nat)
    (cb : τ → Option Nat → Nat → String → τ) (s : τ) : τ :=
  (List.range n).foldl
    (fun s i =>
      let s :=
        if i ≠ 0 then emitF s ("cmpq $" ++ natRepr i ++ ", " ++ reg_b_str)
        else emitF s ("testq " ++ reg_b_str ++ ", " ++ reg_b_str)
      cond_shr_words (n - i) 1 cb "a" s)
    s

def dumb_shl_words {τ : Type} (emitF : τ → String → τ) (reg_b_str : String) (n : Nat)
    (cb : τ → Option Nat → Nat → String → τ) (s : τ) : τ :=
  (List.range n).foldl
    (fun s i =>
      let s :=
        if i ≠ 0 then emitF s ("cmpq $" ++ natRepr i ++ ", " ++ reg_b_str)
        else emitF s ("testq " ++ reg_b_str ++ ", " ++ reg_b_str)
      let cb2 : τ → Option Nat → Nat → String → τ := fun s src_i dst_i cond =>
        cb s (src_i.map (· + i)) (dst_i + i) cond
      cond_shl_words (n - i) 1 cb2 "a" s)
    s

/-- The `while` loop of `fancy_shift_words` visits the powers of two below
`n`; `2 ^ i ≥ i + 1`, so `List.range n` provides enough iterations. -/
def fancy_shift_words {τ : Type} (emitF : τ → String → τ) (reg_b_str : String) (n : Nat)
    (cond_shx_words : (n amount : Nat) → (τ → Option Nat → Nat → String → τ) → String → τ → τ)
    (cb : τ → Option Nat → Nat → String → τ) (s : τ) : τ :=
  let bits := ((List.range n).map (fun i => 2 ^ i)).takeWhile (· < n)
  let s := bits.foldl
    (fun s bit =>
      let s := emitF s ("testq $" ++ natRepr bit ++ ", " ++ reg_b_str)
      cond_shx_words n bit cb "nz" s)
    s
  let s := emitF s ("cmpq $" ++ natRepr (n - 1) ++ ", " ++ reg_b_str)
  cond_shx_words n n cb "a" s

def shift_words_auto {τ : Type} (emitF : τ → String → τ) (reg_b_str : String) (n : Nat)
    (direction : String) (cb : τ → Option Nat → Nat → String → τ) (s : τ) :
    Except String τ :=
  if direction = "left" then
    .ok (if n ≤ 8 then dumb_shl_words emitF reg_b_str n cb s
         else fancy_shift_words emitF reg_b_str n cond_shl_words cb s)
  else if direction = "right" then
    .ok (if n ≤ 8 then dumb_shr_words emitF reg_b_str n cb s
         else fancy_shift_words emitF reg_b_str n cond_shr_words cb s)
  else
    .error "expected either \"left\" or \"right\" as direction"

/-- `FUNC_shift_words`: shift an `n`-limb array by a runtime number of limbs.
The post-loop `assert all(written_to_c_at)` of the in-place strategy is
modelled by erroring out when the flag vector is not all-true. -/
def FUNC_shift_words {σ : Type} [EmitterOps σ] (em : σ) (n : Nat) (direction : String)
    (is_signed : Bool) (m : Nat) : Except String σ :=
  let (em, reg_a) := EmitterOps.take_arg_reg em 0 false none
  let (em, reg_b) := EmitterOps.take_arg_reg em 1 false none
  let (em, reg_c) := EmitterOps.take_arg_reg em 2 false none
  let a : PointerReg := { reg := reg_a, offset := 0 }
  let c : PointerReg := { reg := reg_c, offset := 0 }
  if n > m then
    let (em, reg_fill) :=
      if is_signed then
        let (em, rf) := storeTake em true
        let em := EmitterOps.emit em
          ("movq " ++ strPointerReg (a.displace ((n : Int) - 1)) ++ ", " ++ strReg rf)
        (EmitterOps.emit em ("sarq $63, " ++ strReg rf), rf)
      else EmitterOps.take_zero_reg em
    let (em, reg_tmp) := storeTake em true
    let getp : List Bool → Nat → String := fun w i =>
      if w.getD i false then strPointerReg (c.displace i) else strPointerReg (a.displace i)
    let cb : σ × List Bool → Option Nat → Nat → String → σ × List Bool :=
      fun p src_i dst_i cond =>
        let em := p.1
        let w := p.2
        let em := EmitterOps.emit em ("movq " ++ getp w dst_i ++ ", " ++ strReg reg_tmp)
        let em :=
          match src_i with
          | none => EmitterOps.emit em
              ("cmov" ++ cond ++ "q " ++ strReg reg_fill ++ ", " ++ strReg reg_tmp)
          | some si => EmitterOps.emit em
              ("cmov" ++ cond ++ "q " ++ getp w si ++ ", " ++ strReg reg_tmp)
        let em := EmitterOps.emit em
          ("movq " ++ strReg reg_tmp ++ ", " ++ strPointerReg (c.displace dst_i))
        (em, w.set dst_i true)
    match shift_words_auto (fun p l => (EmitterOps.emit p.1 l, p.2)) (strReg reg_b) n
        direction cb (em, List.replicate n false) with
    | .error e => .error e
    | .ok (em, w) =>
      if w.all (· = true) then .ok em
      else .error "assert all(written_to_c_at)"
  else
    let p := (List.range n).foldl
      (fun (p : σ × List Reg) _ =>
        let (em, r) := storeTake p.1 true
        (em, p.2 ++ [r]))
      (em, [])
    let em := p.1
    let tmp_regs := p.2
    let em := (List.range n).foldl
      (fun em (i : Nat) => EmitterOps.emit em
        ("movq " ++ strPointerReg (a.displace i) ++ ", " ++
          strReg (tmp_regs.getD i (.real 99))))
      em
    let (em, reg_fill) :=
      if is_signed then
        let (em, rf) := storeTake em true
        let em := EmitterOps.emit em
          ("movq " ++ strReg (tmp_regs.getLastD (.real 99)) ++ ", " ++ strReg rf)
        (EmitterOps.emit em ("sarq $63, " ++ strReg rf), rf)
      else EmitterOps.take_zero_reg em
    let cb : σ → Option Nat → Nat → String → σ := fun em src_i dst_i cond =>
      match src_i with
      | none => EmitterOps.emit em
          ("cmov" ++ cond ++ "q " ++ strReg reg_fill ++ ", " ++
            strReg (tmp_regs.getD dst_i (.real 99)))
      | some si => EmitterOps.emit em
          ("cmov" ++ cond ++ "q " ++ strReg (tmp_regs.getD si (.real 99)) ++ ", " ++
            strReg (tmp_regs.getD dst_i (.real 99)))
    match shift_words_auto EmitterOps.emit (strReg reg_b) n direction cb em with
    | .error e => .error e
    | .ok em =>
      .ok ((List.range n).foldl
        (fun em i => EmitterOps.emit em
          ("movq " ++ strReg (tmp_regs.getD i (.real 99)) ++ ", " ++
            strPointerReg (c.displace i)))
        em)

/-! ### CLI (`print_usage_and_exit`, `main`).

`print_usage_and_exit(msg)` writes `msg` and a usage banner to standard
error and exits with code 2; `MainResult.usage msg` models that outcome.
`MainResult.run` models falling through to the selected generator. -/

/-- Python strip (ASCII whitespace on both ends). -/
def pyStrip (s : String) : String :=
  String.mk ((s.data.dropWhile Char.isWhitespace).reverse.dropWhile Char.isWhitespace
    |>.reverse)

def digitsVal (cs : List Char) : Option Nat :=
  if cs.isEmpty || !cs.all Char.isDigit then none
  else some (cs.foldl (fun acc c => acc * 10 + (c.toNat - 48)) 0)

/-- Python `int(s)` on a decimal string: optional surrounding whitespace,
optional sign, then digits; `none` models the `ValueError`. -/
def pyIntParse (s : String) : Option Int :=
  match (pyStrip s).data with
  | [] => none
  | c :: rest =>
    if c = '-' then (digitsVal rest).map (fun v => -(v : Int))
    else if c = '+' then (digitsVal rest).map (fun v => (v : Int))
    else (digitsVal (c :: rest)).map (fun v => (v : Int))

inductive MainResult where
  | usage (msg : String)
  | run (action : String) (width : Int) (name_filters : Option String)
deriving DecidableEq, Repr

def VALID_ACTIONS : List String := ["gen_asm", "gen_c_header", "gen_inline_asm"]

/-- `main()`: `argv` is the full `sys.argv` including the program name. -/
def mainModel (argv : List String) : MainResult :=
  if ¬(argv.length = 3 ∨ argv.length = 4) then .usage "Wrong number of arguments."
  else
    let action := argv.getD 1 ""
    match pyIntParse (argv.getD 2 "") with
    | none => .usage "Invalid width."
    | some n =>
      if action ∈ VALID_ACTIONS then
        .run action n (if argv.length = 4 then some (argv.getD 3 "") else none)
      else .usage "Invalid action."

/-! ### Line predicates and closed-form helpers used by the theorems -/

/-- `AORS` selector from a Bool: the two instruction pairs used by the catalog. -/
def aorsOf (b : Bool) : AORS := if b then AORS_ADD else AORS_SUB

/-- A line whose mnemonic is the early-exit branch `jnc`. -/
def lineIsJnc (l : String) : Bool := l.data.take 3 == ['j', 'n', 'c']

/-- A line whose mnemonic is any conditional/unconditional jump (`j…`). -/
def lineIsBranch (l : String) : Bool := l.data.take 1 == ['j']

/-- A `cmpq`/`testq` gate instruction. -/
def isGateLine (l : String) : Bool :=
  l.data.take 4 == ['c', 'm', 'p', 'q'] || l.data.take 5 == ['t', 'e', 's', 't', 'q']

/-- A `cmova…` conditional move. -/
def isCmovaLine (l : String) : Bool :=
  l.data.take 6 == ['c', 'm', 'o', 'v', 'a', 'q']

def gatesOf (lines : List String) : List String := lines.filter isGateLine

/-- Every gate instruction is immediately followed by a `cmovaq`. -/
def gatesFollowedByCmova : List String → Bool
  | [] => true
  | [l] => !isGateLine l
  | l :: l2 :: rest => (!isGateLine l || isCmovaLine l2) && gatesFollowedByCmova (l2 :: rest)

def noBranchLine (lines : List String) : Bool :=
  lines.all (fun l => !(l.data.take 1 == ['j']))

/-- Does `pat` occur as a contiguous substring of `l`? -/
def hasSub (pat : List Char) : List Char → Bool
  | [] => pat == []
  | c :: rest => pat == (c :: rest).take pat.length || hasSub pat rest

/-- The spelling of a pointer operand with base spelling `base` and limb
displacement `i` (`(base)` at zero, `8·i(base)` otherwise). -/
def ptrStr (i : Nat) (base : String) : String :=
  if i = 0 then "(" ++ base ++ ")" else natRepr (i * 8) ++ "(" ++ base ++ ")"

/-- Lines of one `FUNC_aors` loop iteration in the SysV backend. -/
def sysvAorsChunk (aors : AORS) (i : Nat) : List String :=
  ["movq " ++ ptrStr i "%rsi" ++ ", " ++ "%r11",
   (if i ≠ 0 then aors.ADCSBB else aors.ADDSUB) ++ "q " ++ "%r11" ++ ", " ++
     ptrStr i "%rdi"]

/-- Lines of one `FUNC_aors` loop iteration in the inline backend (after the
`%`-doubling / `!`-to-`%` transformation of `InlineAsmEmitter.emit`). -/
def inlineAorsChunk (aors : AORS) (i : Nat) : List String :=
  ["movq " ++ ptrStr i "%[arg1]" ++ ", " ++ "%%r11",
   (if i ≠ 0 then aors.ADCSBB else aors.ADDSUB) ++ "q " ++ "%%r11" ++ ", " ++
     ptrStr i "%[arg0]"]

/-- Lines of one `FUNC_div_q` loop iteration (mod-only mode, inline backend). -/
def divChunkMod (i : Nat) : List String :=
  ["movq " ++ ptrStr i "%[arg0]" ++ ", " ++ "%%rax", "divq " ++ "%[arg1]"]

/-- Lines of one `FUNC_div_q` loop iteration (div mode, inline backend). -/
def divChunkDiv (i : Nat) : List String :=
  divChunkMod i ++ ["movq " ++ "%%rax" ++ ", " ++ ptrStr i "%[arg2]"]

/-- The first emitted line of `FUNC_aors_q` (SysV backend). -/
def aorsQFirst (aors : AORS) : String :=
  aors.ADDSUB ++ "q " ++ "%rsi" ++ ", " ++ "(%rdi)"

/-- A carry-propagation line of `FUNC_aors_q` (SysV backend). -/
def aorsQAdc (aors : AORS) (i : Nat) : String :=
  aors.ADCSBB ++ "q " ++ "$0" ++ ", " ++ ptrStr i "%rdi"

/-- The full emitted line list of the non-leaky `FUNC_aors_q` (also of the
leaky variant when `n ≤ 2`). -/
def aorsQPlainLines (aors : AORS) (n : Nat) : List String :=
  aorsQFirst aors ::
    (List.range (n - 1)).flatMap (fun j => [aorsQAdc aors (j + 1)]) ++
      ["sbbq %rax, %rax"]

/-- The full emitted line list of the leaky `FUNC_aors_q` for `n > 2`:
a `jnc` follows every carry-propagation step except the last. -/
def aorsQLeakyLines (aors : AORS) (n : Nat) : List String :=
  aorsQFirst aors ::
    ((List.range (n - 2)).flatMap (fun j => [aorsQAdc aors (j + 1), "jnc .L1"]) ++
      [aorsQAdc aors (n - 1)]) ++
      [".L1:", "sbbq %rax, %rax"]

/-- Expected 32-bit sub-register spellings, indexed like `ALL_REGS`. -/
def expected_e_parts : List String :=
  ["%eax", "%edi", "%esi", "%edx", "%ecx", "%r8d", "%r9d", "%r10d", "%r11d",
   "%ebx", "%r12d", "%r13d", "%r14d", "%r15d"]

/-- Expected 8-bit sub-register spellings, indexed like `ALL_REGS`. -/
def expected_l_parts : List String :=
  ["%al", "%dil", "%sil", "%dl", "%cl", "%r8b", "%r9b", "%r10b", "%r11b",
   "%bl", "%r12b", "%r13b", "%r14b", "%r15b"]

/-- The gate instructions the dumb word-shift lowering emits for `n` passes. -/
def expectedGates (n : Nat) : List String :=
  "testq %[arg1], %[arg1]" ::
    (List.range (n - 1)).map (fun j => "cmpq $" ++ natRepr (j + 1) ++ ", %[arg1]")

def shiftWordsRun (n : Nat) (direction : String) : List String :=
  match FUNC_shift_words InlineEm.fresh n direction false 8 with
  | .ok em => em.lines
  | .error _ => []

def shiftWordsOk (n : Nat) (direction : String) : Bool :=
  match FUNC_shift_words InlineEm.fresh n direction false 8 with
  | .ok em => !em.err && !em.reg_store.err
  | .error _ => false

/-- The full structural check behind the amended claim C5, for one `n` and
one direction: the run succeeds, its gate instructions are exactly
`testq` followed by `cmpq $1 … cmpq $(n-1)`, every gate is immediately
followed by a `cmovaq`, and no branch instruction is emitted. -/
def dumbShiftCheck (n : Nat) (direction : String) : Bool :=
  shiftWordsOk n direction &&
  gatesOf (shiftWordsRun n direction) == expectedGates n &&
  gatesFollowedByCmova (shiftWordsRun n direction) &&
  noBranchLine (shiftWordsRun n direction)

/-! ### Helper lemmas: decimal digits and the inline-asm line transform -/

theorem digitChar_isDigit {m : Nat} (h : m < 10) : (Nat.digitChar m).isDigit = true := by
  interval_cases m <;> decide

theorem natReprCore_digits :
    ∀ (fuel n : Nat) (acc : List Char), (∀ c ∈ acc, c.isDigit = true) →
      ∀ c ∈ natReprCore fuel n acc, c.isDigit = true := by
  intro fuel
  induction fuel with
  | zero => intro n acc hacc c hc; exact hacc c hc
  | succ fuel ih =>
    intro n acc hacc c hc
    rw [natReprCore] at hc
    split at hc
    · exact hacc c hc
    · refine ih _ _ ?_ c hc
      intro d hd
      rcases List.mem_cons.mp hd with h1 | h1
      · subst h1; exact digitChar_isDigit (Nat.mod_lt _ (by norm_num))
      · exact hacc d h1

theorem natRepr_digits (n : Nat) : ∀ c ∈ (natRepr n).data, c.isDigit = true := by
  intro c hc
  rw [natRepr] at hc
  split at hc
  · rw [show ("0" : String).data = ['0'] from rfl] at hc
    rcases List.mem_singleton.mp hc with h
    subst h; decide
  · exact natReprCore_digits _ _ _ (by intro d hd; exact absurd hd (List.not_mem_nil d)) c hc

theorem isDigit_ne {c : Char} (h : c.isDigit = true) {ch : Char}
    (hch : ch.isDigit = false) : ¬c = ch := by
  intro he
  rw [he, hch] at h
  exact Bool.false_ne_true h

theorem strMk_append (x y : List Char) : String.mk x ++ String.mk y = String.mk (x ++ y) :=
  rfl

theorem replaceChar_append (a b : String) (old : Char) (new : List Char) :
    replaceChar (a ++ b) old new = replaceChar a old new ++ replaceChar b old new := by
  unfold replaceChar
  rw [String.data_append, List.flatMap_append]
  rfl

theorem inlineTransform_append (a b : String) :
    inlineTransform (a ++ b) = inlineTransform a ++ inlineTransform b := by
  unfold inlineTransform
  rw [replaceChar_append, replaceChar_append]

theorem replaceChar_eq_self (s : String) (old : Char) (new : List Char)
    (h : ∀ c ∈ s.data, ¬c = old) : replaceChar s old new = s := by
  have key : ∀ l : List Char, (∀ c ∈ l, ¬c = old) →
      l.flatMap (fun c => if c == old then new else [c]) = l := by
    intro l
    induction l with
    | nil => intro _; rfl
    | cons c t ih =>
      intro hl
      rw [List.flatMap_cons, if_neg (by simpa using hl c (List.mem_cons_self c t)),
        ih (fun d hd => hl d (List.mem_cons_of_mem c hd))]
      rfl
  show String.mk _ = s
  rw [key s.data h]

theorem inlineTransform_digits (s : String) (h : ∀ c ∈ s.data, c.isDigit = true) :
    inlineTransform s = s := by
  unfold inlineTransform
  rw [replaceChar_eq_self s '%' _ (fun c hc => isDigit_ne (h c hc) (by decide)),
    replaceChar_eq_self s '!' _ (fun c hc => isDigit_ne (h c hc) (by decide))]

theorem natRepr_noBang (n : Nat) : ∀ c ∈ (natRepr n).data, ¬c = '!' :=
  fun c hc => isDigit_ne (natRepr_digits n c hc) (by decide)

theorem inlineTransform_natRepr (n : Nat) : inlineTransform (natRepr n) = natRepr n :=
  inlineTransform_digits _ (natRepr_digits n)

/-! ### Helper lemmas: pointer-operand spelling at a `Nat` displacement -/

theorem intRepr_natCast (m : Nat) : intRepr (m : Int) = natRepr m := by
  unfold intRepr
  rw [if_neg (not_lt.mpr (Int.natCast_nonneg m)), Int.toNat_natCast]

theorem strPointerReg_natDisp (r : Reg) (i : Nat) :
    strPointerReg { reg := r, offset := (0 : Int) + (i : Int) } = ptrStr i (strReg r) := by
  unfold strPointerReg ptrStr
  by_cases hi : i = 0
  · subst hi
    simp
  · have h0 : ((0 : Int) + (i : Int)) ≠ 0 := by
      rw [zero_add]
      exact_mod_cast hi
    rw [if_pos h0, if_neg hi]
    have h8 : ((0 : Int) + (i : Int)) * 8 = ((i * 8 : Nat) : Int) := by push_cast; ring
    rw [h8, intRepr_natCast]

/-! ### Helper lemmas: folds whose steps only append output lines -/

theorem inline_foldl_emits (step : InlineEm → Nat → InlineEm) (f : Nat → List String)
    (h : ∀ s i, step s i = { s with lines := s.lines ++ f i }) :
    ∀ (l : List Nat) (s : InlineEm),
      l.foldl step s = { s with lines := s.lines ++ l.flatMap f } := by
  intro l
  induction l with
  | nil => intro s; simp
  | cons a t ih =>
    intro s
    rw [List.foldl_cons, ih, h]
    simp [List.flatMap_cons]

theorem sysv_foldl_emits (step : SysvEm → Nat → SysvEm) (f : Nat → List String)
    (h : ∀ s i, step s i = { s with lines := s.lines ++ f i }) :
    ∀ (l : List Nat) (s : SysvEm),
      l.foldl step s = { s with lines := s.lines ++ l.flatMap f } := by
  intro l
  induction l with
  | nil => intro s; simp
  | cons a t ih =>
    intro s
    rw [List.foldl_cons, ih, h]
    simp [List.flatMap_cons]

theorem flatMap_congr_mem {α β : Type} (l : List α) (f g : α → List β)
    (h : ∀ a ∈ l, f a = g a) : l.flatMap f = l.flatMap g := by
  induction l with
  | nil => rfl
  | cons a t ih =>
    rw [List.flatMap_cons, List.flatMap_cons, h a (List.mem_cons_self a t),
      ih (fun x hx => h x (List.mem_cons_of_mem a hx))]

/-! ### Small computation lemmas about spellings and the line transform -/

theorem emit_inline_eq (s : InlineEm) (l : String) : EmitterOps.emit s l = s.emit l := rfl

theorem emit_sysv_eq (s : SysvEm) (l : String) : EmitterOps.emit s l = s.emit l := rfl

theorem inlineEmit_def (s : InlineEm) (l : String) :
    s.emit l = { s with lines := s.lines ++ [inlineTransform l] } := rfl

theorem sysvEmit_def (s : SysvEm) (l : String) :
    s.emit l = { s with lines := s.lines ++ [l] } := rfl

theorem strReg_real1 : strReg (.real 1) = "%rdi" := rfl

theorem strReg_real2 : strReg (.real 2) = "%rsi" := rfl

theorem strReg_real8 : strReg (.real 8) = "%r11" := rfl

theorem strReg_fake_arg0 : strReg (.fake "arg0") = "![arg0]" := rfl

theorem strReg_fake_arg1 : strReg (.fake "arg1") = "![arg1]" := rfl

theorem strReg_fake_arg2 : strReg (.fake "arg2") = "![arg2]" := rfl

theorem tMovq : inlineTransform "movq " = "movq " := rfl

theorem tComma : inlineTransform ", " = ", " := rfl

theorem tRax : inlineTransform "%rax" = "%%rax" := rfl

theorem tR11 : inlineTransform "%r11" = "%%r11" := rfl

theorem tFakeArg0 : inlineTransform "![arg0]" = "%[arg0]" := rfl

theorem tFakeArg1 : inlineTransform "![arg1]" = "%[arg1]" := rfl

theorem tFakeArg2 : inlineTransform "![arg2]" = "%[arg2]" := rfl

theorem tDivq : inlineTransform "divq " = "divq " := rfl

theorem tLparen : inlineTransform "(" = "(" := rfl

theorem tRparen : inlineTransform ")" = ")" := rfl

theorem inlineTransform_ptrStr (i : Nat) (base : String) :
    inlineTransform (ptrStr i base) = ptrStr i (inlineTransform base) := by
  unfold ptrStr
  by_cases hi : i = 0
  · rw [if_pos hi, if_pos hi, inlineTransform_append, inlineTransform_append, tLparen,
      tRparen]
  · rw [if_neg hi, if_neg hi, inlineTransform_append, inlineTransform_append,
      inlineTransform_append, inlineTransform_natRepr, tLparen, tRparen]

/-! ### Per-iteration characterization of the template loops -/

theorem aors_step_sysv (aors : AORS) (s : SysvEm) (i : Nat) :
    aors_step aors { reg := .real 1, offset := 0 } { reg := .real 2, offset := 0 }
      (.real 8) s i = { s with lines := s.lines ++ sysvAorsChunk aors i } := by
  unfold aors_step sysvAorsChunk PointerReg.displace
  rw [emit_sysv_eq]
  simp only [strPointerReg_natDisp, strReg_real1, strReg_real2, strReg_real8]
  by_cases hi : i ≠ 0
  · rw [if_pos hi, if_pos hi, emit_sysv_eq, sysvEmit_def, sysvEmit_def]
    simp
  · rw [if_neg hi, if_neg hi, emit_sysv_eq, sysvEmit_def, sysvEmit_def]
    simp

theorem aors_step_inline (aors : AORS) (hsub : inlineTransform aors.ADDSUB = aors.ADDSUB)
    (hcb : inlineTransform aors.ADCSBB = aors.ADCSBB) (s : InlineEm) (i : Nat) :
    aors_step aors { reg := .fake "arg0", offset := 0 } { reg := .fake "arg1", offset := 0 }
      (.real 8) s i = { s with lines := s.lines ++ inlineAorsChunk aors i } := by
  unfold aors_step inlineAorsChunk PointerReg.displace
  rw [emit_inline_eq]
  simp only [strPointerReg_natDisp, strReg_fake_arg0, strReg_fake_arg1, strReg_real8]
  have tq : inlineTransform "q " = "q " := rfl
  by_cases hi : i ≠ 0
  · rw [if_pos hi, if_pos hi, emit_inline_eq, inlineEmit_def, inlineEmit_def]
    simp only [inlineTransform_append, inlineTransform_ptrStr, tMovq, tComma, tR11,
      tFakeArg0, tFakeArg1, hcb, tq]
    simp
  · rw [if_neg hi, if_neg hi, emit_inline_eq, inlineEmit_def, inlineEmit_def]
    simp only [inlineTransform_append, inlineTransform_ptrStr, tMovq, tComma, tR11,
      tFakeArg0, tFakeArg1, hsub, tq]
    simp

theorem div_q_step_inline_div (s : InlineEm) (i : Nat) :
    div_q_step { reg := .fake "arg0", offset := 0 } (.fake "arg1") (.real 0)
      (some { reg := .fake "arg2", offset := 0 }) s i =
      { s with lines := s.lines ++ divChunkDiv i } := by
  unfold div_q_step divChunkDiv divChunkMod PointerReg.displace
  dsimp only
  simp only [emit_inline_eq, inlineEmit_def]
  have hrax : strReg (.real 0) = "%rax" := rfl
  have harg1 : inlineTransform (strReg (Reg.fake "arg1")) = "%[arg1]" := rfl
  simp only [strPointerReg_natDisp, strReg_fake_arg0, strReg_fake_arg2, hrax]
  simp only [inlineTransform_append, inlineTransform_ptrStr, tMovq, tComma, tRax,
    tFakeArg0, tFakeArg2, tDivq, harg1]
  simp

theorem aors_q_step_zero (aors : AORS) (label_done : Option String) (n : Nat)
    (s : SysvEm) :
    aors_q_step aors { reg := .real 1, offset := 0 } (.real 2) "$0" label_done n s 0 =
      { s with lines := s.lines ++ [aorsQFirst aors] } := by
  unfold aors_q_step aorsQFirst
  rw [if_neg (by simp)]
  rw [emit_sysv_eq, sysvEmit_def]
  dsimp only [PointerReg.displace]
  simp only [strPointerReg_natDisp, strReg_real1, strReg_real2]
  have hp : ptrStr 0 "%rdi" = "(%rdi)" := rfl
  rw [hp]

theorem aors_q_step_plain (aors : AORS) (n : Nat) (s : SysvEm) (j : Nat) :
    aors_q_step aors { reg := .real 1, offset := 0 } (.real 2) "$0" none n s (j + 1) =
      { s with lines := s.lines ++ [aorsQAdc aors (j + 1)] } := by
  unfold aors_q_step aorsQAdc
  rw [if_pos (by exact Nat.succ_ne_zero j)]
  dsimp only
  rw [emit_sysv_eq, sysvEmit_def, PointerReg.displace]
  simp only [strPointerReg_natDisp, strReg_real1]

theorem aors_q_step_leaky (aors : AORS) (n : Nat) (s : SysvEm) (j : Nat) :
    aors_q_step aors { reg := .real 1, offset := 0 } (.real 2) "$0" (some ".L1") n s
        (j + 1) =
      { s with lines := s.lines ++
        (aorsQAdc aors (j + 1) :: if j + 1 ≠ n - 1 then ["jnc .L1"] else []) } := by
  unfold aors_q_step aorsQAdc
  rw [if_pos (by exact Nat.succ_ne_zero j)]
  dsimp only
  rw [emit_sysv_eq, sysvEmit_def, PointerReg.displace]
  simp only [strPointerReg_natDisp, strReg_real1]
  by_cases h2 : j + 1 ≠ n - 1
  · rw [if_pos h2, if_pos h2, emit_sysv_eq, sysvEmit_def]
    have hj : ("jnc " ++ ".L1" : String) = "jnc .L1" := rfl
    simp [hj]
  · rw [if_neg h2, if_neg h2, emit_sysv_eq, sysvEmit_def]

theorem div_q_step_inline_mod (s : InlineEm) (i : Nat) :
    div_q_step { reg := .fake "arg0", offset := 0 } (.fake "arg1") (.real 0) none s i =
      { s with lines := s.lines ++ divChunkMod i } := by
  unfold div_q_step divChunkMod PointerReg.displace
  dsimp only
  simp only [emit_inline_eq, inlineEmit_def]
  have hrax : strReg (.real 0) = "%rax" := rfl
  have harg1 : inlineTransform (strReg (Reg.fake "arg1")) = "%[arg1]" := rfl
  simp only [strPointerReg_natDisp, strReg_fake_arg0, hrax]
  simp only [inlineTransform_append, inlineTransform_ptrStr, tMovq, tComma, tRax,
    tFakeArg0, tDivq, harg1]
  simp

/-! ### Characterization of the closing `take_retval_reg`/`sbbq` idiom -/

theorem retval_sbb_inline (s : InlineEm) :
    retval_sbb_finish s =
      { s with
        retval := some ""
        retval_earlyclobber := false
        lines := s.lines ++ ["sbbq %[ret], %[ret]"] } := rfl

theorem sysv_take_retval (s : SysvEm) (st : RegStore) (r : Nat)
    (h : s.reg_store.take_by_name "rax" true = (st, r)) :
    EmitterOps.take_retval_reg s true = ({ s with reg_store := st }, Reg.real r) := by
  show SysvEm.take_retval_reg s true = _
  unfold SysvEm.take_retval_reg
  rw [h]

theorem retval_sbb_sysv (s : SysvEm) (fr w : List Nat) (hmem : 0 ∈ fr) (hw : ¬0 ∈ w)
    (h : s.reg_store = { free_indices := fr, writes := w, err := false }) :
    retval_sbb_finish s =
      { s with
        reg_store := { free_indices := fr.erase 0, writes := w ++ [0], err := false },
        lines := s.lines ++ ["sbbq %rax, %rax"] } := by
  have hidx : index_by_name "rax" = 0 := rfl
  have htake : s.reg_store.take_by_name "rax" true =
      ({ free_indices := fr.erase 0, writes := w ++ [0], err := false }, 0) := by
    unfold RegStore.take_by_name RegStore.take_by_index RegStore.addWrite
    rw [hidx, h]
    dsimp only
    rw [if_pos hmem, if_neg hw, if_pos rfl]
  unfold retval_sbb_finish
  rw [sysv_take_retval s _ _ htake]
  rfl

/-! ### Whole-run characterization of `FUNC_aors` on both backends -/

theorem FUNC_aors_sysv_char (aors : AORS) (n : Nat) :
    FUNC_aors SysvEm.fresh n aors =
      { reg_store := { free_indices := [3, 4, 5, 6, 7], writes := [8, 0], err := false },
        fixed_regs := [], arg_map := SYSV_ABI_ARG_REG_NAMES, label_counter := 0,
        lines := (List.range n).flatMap (sysvAorsChunk aors) ++ ["sbbq %rax, %rax"] } := by
  have h0 : FUNC_aors SysvEm.fresh n aors =
      retval_sbb_finish ((List.range n).foldl
        (aors_step aors { reg := .real 1, offset := 0 } { reg := .real 2, offset := 0 }
          (.real 8))
        { reg_store := { free_indices := [0, 3, 4, 5, 6, 7], writes := [8], err := false },
          fixed_regs := [], arg_map := SYSV_ABI_ARG_REG_NAMES, label_counter := 0,
          lines := [] }) := rfl
  rw [h0, sysv_foldl_emits _ (sysvAorsChunk aors) (aors_step_sysv aors) (List.range n) _]
  rw [retval_sbb_sysv _ [0, 3, 4, 5, 6, 7] [8] (by decide) (by decide) rfl]
  simp

theorem FUNC_aors_inline_char (aors : AORS)
    (hsub : inlineTransform aors.ADDSUB = aors.ADDSUB)
    (hcb : inlineTransform aors.ADCSBB = aors.ADCSBB) (n : Nat) :
    FUNC_aors InlineEm.fresh n aors =
      { reg_store := { free_indices := [0, 1, 2, 3, 4, 5, 6, 7], writes := [8], err := false },
        args := [(false, ""), (false, "")], retval := some "",
        retval_earlyclobber := false, needs_zero_input := false, label_counter := 0,
        lines := (List.range n).flatMap (inlineAorsChunk aors) ++ ["sbbq %[ret], %[ret]"],
        err := false } := by
  have h0 : FUNC_aors InlineEm.fresh n aors =
      retval_sbb_finish ((List.range n).foldl
        (aors_step aors { reg := .fake "arg0", offset := 0 }
          { reg := .fake "arg1", offset := 0 } (.real 8))
        { reg_store := { free_indices := [0, 1, 2, 3, 4, 5, 6, 7], writes := [8], err := false },
          args := [(false, ""), (false, "")], retval := none, retval_earlyclobber := false,
          needs_zero_input := false, label_counter := 0, lines := [], err := false }) := rfl
  rw [h0, inline_foldl_emits _ (inlineAorsChunk aors) (aors_step_inline aors hsub hcb)
    (List.range n) _, retval_sbb_inline]
  simp

/-! ### Whole-run characterization of `FUNC_div_q` on the inline backend -/

theorem write_retval_rdx_inline (s : InlineEm) :
    EmitterOps.write_retval s (.real 3) = { s with retval := some "rdx" } := rfl

theorem FUNC_div_q_div_char (n : Nat) :
    FUNC_div_q InlineEm.fresh n "div" =
      .ok { reg_store := { free_indices := [1, 2, 4, 5, 6, 7, 8], writes := [0, 3], err := false }
            args := [(false, ""), (false, ""), (false, "")]
            retval := some "rdx"
            retval_earlyclobber := false
            needs_zero_input := false
            label_counter := 0
            lines := "xorl %%edx, %%edx" :: (List.range n).reverse.flatMap divChunkDiv
            err := false } := by
  have h0 : FUNC_div_q InlineEm.fresh n "div" =
      .ok (EmitterOps.write_retval
        ((List.range n).reverse.foldl
          (div_q_step { reg := .fake "arg0", offset := 0 } (.fake "arg1") (.real 0)
            (some { reg := .fake "arg2", offset := 0 }))
          { reg_store := { free_indices := [1, 2, 4, 5, 6, 7, 8], writes := [0, 3], err := false }
            args := [(false, ""), (false, ""), (false, "")]
            retval := none
            retval_earlyclobber := false
            needs_zero_input := false
            label_counter := 0
            lines := ["xorl %%edx, %%edx"]
            err := false })
        (.real 3)) := rfl
  rw [h0, inline_foldl_emits _ divChunkDiv div_q_step_inline_div (List.range n).reverse _,
    write_retval_rdx_inline]
  rfl

theorem FUNC_div_q_mod_char (n : Nat) :
    FUNC_div_q InlineEm.fresh n "mod" =
      .ok { reg_store := { free_indices := [1, 2, 4, 5, 6, 7, 8], writes := [0, 3], err := false }
            args := [(false, ""), (false, "")]
            retval := some "rdx"
            retval_earlyclobber := false
            needs_zero_input := false
            label_counter := 0
            lines := "xorl %%edx, %%edx" :: (List.range n).reverse.flatMap divChunkMod
            err := false } := by
  have h0 : FUNC_div_q InlineEm.fresh n "mod" =
      .ok (EmitterOps.write_retval
        ((List.range n).reverse.foldl
          (div_q_step { reg := .fake "arg0", offset := 0 } (.fake "arg1") (.real 0) none)
          { reg_store := { free_indices := [1, 2, 4, 5, 6, 7, 8], writes := [0, 3], err := false }
            args := [(false, ""), (false, "")]
            retval := none
            retval_earlyclobber := false
            needs_zero_input := false
            label_counter := 0
            lines := ["xorl %%edx, %%edx"]
            err := false })
        (.real 3)) := rfl
  rw [h0, inline_foldl_emits _ divChunkMod div_q_step_inline_mod (List.range n).reverse _,
    write_retval_rdx_inline]
  rfl

/-! ### Whole-run characterization of `FUNC_aors_q` on the SysV backend -/

theorem aors_q_sysv_plain_char (aors : AORS) (m : Nat) :
    FUNC_aors_q SysvEm.fresh (m + 1) aors false =
      { reg_store := { free_indices := [3, 4, 5, 6, 7, 8], writes := [0], err := false }
        fixed_regs := []
        arg_map := SYSV_ABI_ARG_REG_NAMES
        label_counter := 0
        lines := aorsQPlainLines aors (m + 1) } := by
  have h0 : FUNC_aors_q SysvEm.fresh (m + 1) aors false =
      retval_sbb_finish ((List.range (m + 1)).foldl
        (aors_q_step aors { reg := .real 1, offset := 0 } (.real 2) "$0" none (m + 1))
        { reg_store := { free_indices := [0, 3, 4, 5, 6, 7, 8], writes := [], err := false }
          fixed_regs := []
          arg_map := SYSV_ABI_ARG_REG_NAMES
          label_counter := 0
          lines := [] }) := rfl
  rw [h0, List.range_succ_eq_map, List.foldl_cons, aors_q_step_zero, List.foldl_map,
    sysv_foldl_emits _ (fun j => [aorsQAdc aors (j + 1)])
      (fun s j => aors_q_step_plain aors (m + 1) s j) (List.range m) _,
    retval_sbb_sysv _ [0, 3, 4, 5, 6, 7, 8] [] (by decide) (by decide) rfl]
  unfold aorsQPlainLines
  simp

theorem aors_q_sysv_leaky_char (aors : AORS) (m : Nat) :
    FUNC_aors_q SysvEm.fresh (m + 3) aors true =
      { reg_store := { free_indices := [3, 4, 5, 6, 7, 8], writes := [0], err := false }
        fixed_regs := []
        arg_map := SYSV_ABI_ARG_REG_NAMES
        label_counter := 1
        lines := aorsQLeakyLines aors (m + 3) } := by
  have h0 : FUNC_aors_q SysvEm.fresh (m + 3) aors true =
      retval_sbb_finish (SysvEm.label_here
        ((List.range (m + 3)).foldl
          (aors_q_step aors { reg := .real 1, offset := 0 } (.real 2) "$0" (some ".L1")
            (m + 3))
          { reg_store := { free_indices := [0, 3, 4, 5, 6, 7, 8], writes := [], err := false }
            fixed_regs := []
            arg_map := SYSV_ABI_ARG_REG_NAMES
            label_counter := 1
            lines := [] })
        ".L1") := by
    unfold FUNC_aors_q
    split_ifs with h
    · rfl
    · exact absurd ⟨rfl, by omega⟩ h
  have hstep : ∀ (s : SysvEm) (j : Nat),
      aors_q_step aors { reg := .real 1, offset := 0 } (.real 2) "$0" (some ".L1")
        (m + 3) s (Nat.succ j) =
      { s with lines := s.lines ++
        (aorsQAdc aors (j + 1) :: if j + 1 ≠ m + 2 then ["jnc .L1"] else []) } := by
    intro s j
    have h := aors_q_step_leaky aors (m + 3) s j
    simpa using h
  rw [h0, List.range_succ_eq_map, List.foldl_cons, aors_q_step_zero, List.foldl_map,
    sysv_foldl_emits _
      (fun j => aorsQAdc aors (j + 1) :: if j + 1 ≠ m + 2 then ["jnc .L1"] else [])
      hstep (List.range (m + 2)) _]
  have hmid : (List.range (m + 2)).flatMap
      (fun j => aorsQAdc aors (j + 1) :: if j + 1 ≠ m + 2 then ["jnc .L1"] else []) =
      (List.range (m + 1)).flatMap (fun j => [aorsQAdc aors (j + 1), "jnc .L1"]) ++
        [aorsQAdc aors (m + 2)] := by
    rw [List.range_succ, List.flatMap_append]
    have h1 : (List.range (m + 1)).flatMap
        (fun j => aorsQAdc aors (j + 1) :: if j + 1 ≠ m + 2 then ["jnc .L1"] else []) =
        (List.range (m + 1)).flatMap (fun j => [aorsQAdc aors (j + 1), "jnc .L1"]) := by
      apply flatMap_congr_mem
      intro j hj
      have hj2 : j < m + 1 := List.mem_range.mp hj
      rw [if_pos (by omega)]
    have h2 : ([m + 1] : List Nat).flatMap
        (fun j => aorsQAdc aors (j + 1) :: if j + 1 ≠ m + 2 then ["jnc .L1"] else []) =
        [aorsQAdc aors (m + 2)] := by
      rw [List.flatMap_cons, if_neg (by omega)]
      rfl
    rw [h1, h2]
  rw [hmid, retval_sbb_sysv _ [0, 3, 4, 5, 6, 7, 8] [] (by decide) (by decide) rfl]
  unfold aorsQLeakyLines
  have hlbl : (".L1" ++ ":" : String) = ".L1:" := rfl
  have hadd1 : m + 3 - 2 = m + 1 := by omega
  have hadd2 : m + 3 - 1 = m + 2 := by omega
  rw [hadd1, hadd2]
  simp [SysvEm.label_here, sysvEmit_def, hlbl]

/-! ### Predicate lemmas used by the claim theorems -/

theorem lineIsJnc_branch (l : String) (h : lineIsJnc l = true) : lineIsBranch l = true := by
  unfold lineIsJnc at h
  unfold lineIsBranch
  have h2 : l.data.take 3 = ['j', 'n', 'c'] := by
    exact eq_of_beq h
  have h3 : l.data.take 1 = ['j'] := by
    have h4 := congrArg (List.take 1) h2
    rw [List.take_take] at h4
    simpa using h4
  rw [h3]
  rfl

theorem noBang_append {a b : String} (ha : '!' ∉ a.data) (hb : '!' ∉ b.data) :
    '!' ∉ (a ++ b).data := by
  rw [String.data_append]
  intro h
  rcases List.mem_append.mp h with h | h
  · exact ha h
  · exact hb h

theorem noBang_natRepr (n : Nat) : '!' ∉ (natRepr n).data := by
  intro h
  exact absurd (natRepr_digits n _ h) (by decide)

theorem noBang_ptrStr {base : String} (i : Nat) (hb : '!' ∉ base.data) :
    '!' ∉ (ptrStr i base).data := by
  unfold ptrStr
  split
  · exact noBang_append (noBang_append (by decide) hb) (by decide)
  · exact noBang_append (noBang_append (noBang_append (noBang_natRepr _) (by decide)) hb)
      (by decide)

/-! ### C2 — clobber soundness of the inline epilogue -/

/-- A general-purpose register named `nm` is accounted for by the epilogue:
it appears in the clobber list, or some output operand was registered for
it, or some input operand was registered for it. -/
def epCovers (st : EpState) (nm : String) : Prop :=
  nm ∈ st.clobbers ∨ (∃ o ∈ st.outputs, o.2.2.2 = nm) ∨ ∃ p ∈ st.inputs, p.2.2 = nm

instance (st : EpState) (nm : String) : Decidable (epCovers st nm) := by
  unfold epCovers
  infer_instance

theorem epCovers_addOutput {st : EpState} {nm : String} (kw rn : String) (ir fe : Bool)
    (h : epCovers st nm) : epCovers (epAddOutput st kw rn ir fe) nm := by
  unfold epAddOutput epCovers
  unfold epCovers at h
  by_cases h1 : rn = ""
  · rw [if_pos h1]
    dsimp only
    rcases h with h | ⟨o, ho, he⟩ | ⟨p, hp, he⟩
    · exact Or.inl h
    · exact Or.inr (Or.inl ⟨o, List.mem_append_left _ ho, he⟩)
    · exact Or.inr (Or.inr ⟨p, hp, he⟩)
  · rw [if_neg h1]
    dsimp only
    by_cases h2 : rn ∈ st.clobbers
    · rw [if_pos h2]
      dsimp only
      rcases h with h | ⟨o, ho, he⟩ | ⟨p, hp, he⟩
      · by_cases h3 : nm = rn
        · subst h3
          refine Or.inr (Or.inl ⟨_, List.mem_append_right _ (List.mem_singleton.mpr rfl),
            rfl⟩)
        · exact Or.inl ((List.mem_erase_of_ne h3).mpr h)
      · exact Or.inr (Or.inl ⟨o, List.mem_append_left _ ho, he⟩)
      · exact Or.inr (Or.inr ⟨p, hp, he⟩)
    · rw [if_neg h2]
      dsimp only
      rcases h with h | ⟨o, ho, he⟩ | ⟨p, hp, he⟩
      · exact Or.inl h
      · exact Or.inr (Or.inl ⟨o, List.mem_append_left _ ho, he⟩)
      · exact Or.inr (Or.inr ⟨p, hp, he⟩)

theorem epCovers_addInput {st : EpState} {nm : String} (kw rn : String)
    (h : epCovers st nm) : epCovers (epAddInput st kw rn) nm := by
  unfold epAddInput epCovers
  unfold epCovers at h
  by_cases h1 : rn = ""
  · rw [if_pos h1]
    dsimp only
    rcases h with h | ⟨o, ho, he⟩ | ⟨p, hp, he⟩
    · exact Or.inl h
    · exact Or.inr (Or.inl ⟨o, ho, he⟩)
    · exact Or.inr (Or.inr ⟨p, List.mem_append_left _ hp, he⟩)
  · rw [if_neg h1]
    dsimp only
    rcases h with h | ⟨o, ho, he⟩ | ⟨p, hp, he⟩
    · exact Or.inl h
    · exact Or.inr (Or.inl ⟨o, ho, he⟩)
    · exact Or.inr (Or.inr ⟨p, List.mem_append_left _ hp, he⟩)

theorem epCovers_foldl {α : Type} (f : EpState → α → EpState)
    (hf : ∀ st a nm, epCovers st nm → epCovers (f st a) nm)
    (l : List α) (st : EpState) (nm : String) (h : epCovers st nm) :
    epCovers (l.foldl f st) nm := by
  induction l generalizing st with
  | nil => exact h
  | cons a t ih => exact ih _ (hf st a nm h)

theorem epCovers_finalSort (st : EpState) (nm : String) (h : epCovers st nm) :
    epCovers
      { st with clobbers := (st.clobbers ++ ["cc", "memory"]).insertionSort (· ≤ ·) }
      nm := by
  rcases h with h | h | h
  · exact Or.inl ((List.mem_insertionSort _).mpr (List.mem_append_left _ h))
  · exact Or.inr (Or.inl h)
  · exact Or.inr (Or.inr h)

/-- C2: at `emit_epilogue`, every general-purpose register recorded as
written in the register store appears as an output operand, as an input
operand, or in the clobber list; the clobber list always contains `"cc"`
and `"memory"` and is sorted (Python sorts it before printing). -/
theorem claim_c2_clobber_soundness (em : InlineEm) :
    "cc" ∈ (emit_epilogue em).clobbers ∧
    "memory" ∈ (emit_epilogue em).clobbers ∧
    List.Sorted (· ≤ ·) (emit_epilogue em).clobbers ∧
    ∀ index ∈ em.reg_store.writes, epCovers (emit_epilogue em) (name_by_index index) := by
  have hsorted : ∀ l : List String, List.Sorted (· ≤ ·) (l.insertionSort (· ≤ ·)) :=
    fun l => List.sorted_insertionSort _ l
  refine ⟨?_, ?_, ?_, ?_⟩
  · exact (List.mem_insertionSort _).mpr (List.mem_append_right _ (by decide))
  · exact (List.mem_insertionSort _).mpr (List.mem_append_right _ (by decide))
  · exact hsorted _
  · intro index hidx
    have h0 : epCovers
        { outputs := [], inputs := [], clobbers := em.reg_store.clobbers, err := false }
        (name_by_index index) :=
      Or.inl (List.mem_map_of_mem _ hidx)
    unfold emit_epilogue
    apply epCovers_finalSort
    · cases em.needs_zero_input
      case _ =>
        rw [if_neg (by decide)]
        cases hr : em.retval
        case _ =>
          dsimp only
          refine epCovers_foldl _ ?_ _ _ _ h0
          intro st a nm h
          dsimp only
          split
          · exact epCovers_addOutput _ _ _ _ h
          · exact epCovers_addInput _ _ h
        case _ r =>
          dsimp only
          apply epCovers_addOutput
          refine epCovers_foldl _ ?_ _ _ _ h0
          intro st a nm h
          dsimp only
          split
          · exact epCovers_addOutput _ _ _ _ h
          · exact epCovers_addInput _ _ h
      case _ =>
        rw [if_pos (by decide)]
        have hzero : ∀ (st : EpState) (nm : String), epCovers st nm →
            epCovers { st with inputs := st.inputs ++ [("zero", "r", "")] } nm := by
          intro st nm h
          rcases h with h | ⟨o, ho, he⟩ | ⟨p, hp, he⟩
          · exact Or.inl h
          · exact Or.inr (Or.inl ⟨o, ho, he⟩)
          · exact Or.inr (Or.inr ⟨p, List.mem_append_left _ hp, he⟩)
        apply hzero
        cases hr : em.retval
        case _ =>
          dsimp only
          refine epCovers_foldl _ ?_ _ _ _ h0
          intro st a nm h
          dsimp only
          split
          · exact epCovers_addOutput _ _ _ _ h
          · exact epCovers_addInput _ _ h
        case _ r =>
          dsimp only
          apply epCovers_addOutput
          refine epCovers_foldl _ ?_ _ _ _ h0
          intro st a nm h
          dsimp only
          split
          · exact epCovers_addOutput _ _ _ _ h
          · exact epCovers_addInput _ _ h

/-- A concrete emitter state for the C2 witness: the state left by
`FUNC_div_q` (inline, `n = 1`, div mode). -/
def c2WitnessEm : InlineEm :=
  match FUNC_div_q InlineEm.fresh 1 "div" with
  | .ok em => em
  | .error _ => InlineEm.fresh

/-- C2, witness: the theorem applied to a concrete emitter state in which
`rdx` (index 3) was written. -/
theorem claim_c2_clobber_soundness_witness :
    3 ∈ c2WitnessEm.reg_store.writes ∧
    epCovers (emit_epilogue c2WitnessEm) (name_by_index 3) :=
  ⟨by decide, (claim_c2_clobber_soundness c2WitnessEm).2.2.2 3 (by decide)⟩

/-! ### C3 — register-pool balance after a routine template -/

/-- C3, counterexample: after `FUNC_aors` runs (n = 1), the free set of the pool
does not equal the initial scratch contents minus only the return-operand
register.  On the SysV backend the claim would predict `[1,…,8]` (scratch
minus `rax`); on the inline backend the return operand is not taken from the
pool at all, so the claim would predict the full initial `[0,…,8]`.  In both
backends the argument and temporary registers are also missing. -/
theorem claim_c3_pool_balance_cex :
    SysvEm.fresh.reg_store.free_indices = [0, 1, 2, 3, 4, 5, 6, 7, 8] ∧
    (FUNC_aors SysvEm.fresh 1 AORS_ADD).reg_store.free_indices ≠ [1, 2, 3, 4, 5, 6, 7, 8] ∧
    InlineEm.fresh.reg_store.free_indices = [0, 1, 2, 3, 4, 5, 6, 7, 8] ∧
    (FUNC_aors InlineEm.fresh 1 AORS_ADD).reg_store.free_indices ≠
      [0, 1, 2, 3, 4, 5, 6, 7, 8] := by
  refine ⟨rfl, by decide, rfl, by decide⟩

/-- C3, amended: after `FUNC_aors` runs against a fresh emitter, the pool is
missing exactly the registers still held at the end of the template — the two
pointer arguments (`rdi`, `rsi`) and the return register `rax` on the SysV
backend, plus the scratch temporary `r11` on both backends; none of them is
released.  This holds for every `n`. -/
theorem claim_c3_pool_after_aors (n : Nat) (b : Bool) :
    (FUNC_aors SysvEm.fresh n (aorsOf b)).reg_store =
      { free_indices := [3, 4, 5, 6, 7], writes := [8, 0], err := false } ∧
    (FUNC_aors InlineEm.fresh n (aorsOf b)).reg_store =
      { free_indices := [0, 1, 2, 3, 4, 5, 6, 7], writes := [8], err := false } := by
  constructor
  · rw [FUNC_aors_sysv_char]
  · rw [FUNC_aors_inline_char (aorsOf b) (by cases b <;> rfl) (by cases b <;> rfl)]

/-! ### C4 — operand discipline of the two backends -/

/-- C4, counterexample: `FUNC_aors` on the inline backend steers no argument
into a named register (both recorded argument entries have an empty forced
name), yet its emitted text contains the concrete register spelling
`%%r11` — the temporary taken directly from the register store. -/
theorem claim_c4_concrete_in_inline_cex :
    (FUNC_aors InlineEm.fresh 1 AORS_ADD).args = [(false, ""), (false, "")] ∧
    ((FUNC_aors InlineEm.fresh 1 AORS_ADD).lines.any
      (fun l => hasSub "%%r11".data l.data)) = true := by
  refine ⟨by decide, by decide⟩

/-- C4, amended: for `FUNC_aors` and every `n`, no symbolic operand (no `!`
placeholder character) ever appears in SysV output; in inline output the
emitted lines are exactly the closed form `inlineAorsChunk`, whose only
concrete-register spellings are the store-allocated temporary `%%r11` —
concrete operands thus appear not only for steered arguments but also for
registers the template takes directly from the register store. -/
theorem claim_c4_operand_discipline (n : Nat) (b : Bool) :
    (∀ l ∈ (FUNC_aors SysvEm.fresh n (aorsOf b)).lines, '!' ∉ l.data) ∧
    ((FUNC_aors InlineEm.fresh n (aorsOf b)).lines =
      (List.range n).flatMap (inlineAorsChunk (aorsOf b)) ++ ["sbbq %[ret], %[ret]"]) ∧
    ((FUNC_aors InlineEm.fresh n (aorsOf b)).args = [(false, ""), (false, "")]) := by
  refine ⟨?_, ?_, ?_⟩
  · intro l hl
    rw [FUNC_aors_sysv_char] at hl
    rcases List.mem_append.mp hl with h3 | h3
    · rcases List.mem_flatMap.mp h3 with ⟨i, _, hl2⟩
      unfold sysvAorsChunk at hl2
      rcases List.mem_cons.mp hl2 with rfl | hl2
      · exact noBang_append (noBang_append (noBang_append (by decide)
          (noBang_ptrStr i (by decide))) (by decide)) (by decide)
      · rcases List.mem_cons.mp hl2 with rfl | hl2
        · refine noBang_append (noBang_append (noBang_append (noBang_append ?_ (by decide))
            (by decide)) (by decide)) (noBang_ptrStr i (by decide))
          cases b <;> split <;> decide
        · exact absurd hl2 (List.not_mem_nil l)
    · rcases List.mem_cons.mp h3 with rfl | h3
      · decide
      · exact absurd h3 (List.not_mem_nil l)
  · rw [FUNC_aors_inline_char (aorsOf b) (by cases b <;> rfl) (by cases b <;> rfl)]
  · rw [FUNC_aors_inline_char (aorsOf b) (by cases b <;> rfl) (by cases b <;> rfl)]

/-- C4, witness: the amended theorem applied at `n = 1` and a concrete line. -/
theorem claim_c4_operand_discipline_witness :
    '!' ∉ ("movq (%rsi), %r11" : String).data :=
  (claim_c4_operand_discipline 1 true).1 "movq (%rsi), %r11" (by decide)

/-! ### C6 — structure of `FUNC_div_q` -/

/-- C6: on the inline backend (whose argument acquisition emits no code),
`FUNC_div_q` first zeroes `rdx` with `xorl %edx, %edx`, then for `i` from
`n-1` down to `0` emits exactly a `movq` of `a[i]` into `rax`, a `divq` by
the divisor register and, in `div` mode only, a store of `rax` into
`dst[i]`; it binds the final `rdx` as the return operand in both modes, and
it raises a `ValueError` for any other operation selector. -/
theorem claim_c6_div_q_structure (n : Nat) :
    ((FUNC_div_q InlineEm.fresh n "div").map InlineEm.lines =
      .ok ("xorl %%edx, %%edx" :: (List.range n).reverse.flatMap divChunkDiv)) ∧
    ((FUNC_div_q InlineEm.fresh n "div").map InlineEm.retval = .ok (some "rdx")) ∧
    ((FUNC_div_q InlineEm.fresh n "mod").map InlineEm.lines =
      .ok ("xorl %%edx, %%edx" :: (List.range n).reverse.flatMap divChunkMod)) ∧
    ((FUNC_div_q InlineEm.fresh n "mod").map InlineEm.retval = .ok (some "rdx")) ∧
    ((FUNC_div_q InlineEm.fresh n "div").map InlineEm.err = .ok false) ∧
    ((FUNC_div_q InlineEm.fresh n "mod").map InlineEm.err = .ok false) ∧
    (∀ operation, operation ≠ "div" → operation ≠ "mod" →
      FUNC_div_q InlineEm.fresh n operation =
        .error "expected either \"div\" or \"mod\" as operation") := by
  refine ⟨?_, ?_, ?_, ?_, ?_, ?_, ?_⟩
  · rw [FUNC_div_q_div_char]; rfl
  · rw [FUNC_div_q_div_char]; rfl
  · rw [FUNC_div_q_mod_char]; rfl
  · rw [FUNC_div_q_mod_char]; rfl
  · rw [FUNC_div_q_div_char]; rfl
  · rw [FUNC_div_q_mod_char]; rfl
  · intro operation h1 h2
    unfold FUNC_div_q
    split_ifs with ha
    · exact absurd ha h1
    · rfl

/-- C6, witness: the error clause at a concrete unknown selector. -/
theorem claim_c6_div_q_structure_witness :
    FUNC_div_q InlineEm.fresh 2 "quot" =
      .error "expected either \"div\" or \"mod\" as operation" :=
  (claim_c6_div_q_structure 2).2.2.2.2.2.2 "quot" (by decide) (by decide)

/-! ### C7 — early-exit branches of `FUNC_aors_q` -/

/-- C7: for the SysV backend and `n ≥ 1`, the non-leaky `FUNC_aors_q` emits
no branch at all; the leaky variant emits a `jnc` if and only if `n > 2`,
and then its line list is exactly `aorsQLeakyLines`: a `jnc` follows each
carry step `1 ≤ i ≤ n-2`, no branch follows the first (`i = 0`) operation
or the last carry step. -/
theorem claim_c7_aors_q_branches (n : Nat) (hn : 1 ≤ n) (b : Bool) :
    ((FUNC_aors_q SysvEm.fresh n (aorsOf b) false).lines = aorsQPlainLines (aorsOf b) n) ∧
    (¬2 < n → (FUNC_aors_q SysvEm.fresh n (aorsOf b) true).lines =
      (FUNC_aors_q SysvEm.fresh n (aorsOf b) false).lines) ∧
    (2 < n → (FUNC_aors_q SysvEm.fresh n (aorsOf b) true).lines =
      aorsQLeakyLines (aorsOf b) n) ∧
    ((∃ l ∈ (FUNC_aors_q SysvEm.fresh n (aorsOf b) true).lines, lineIsJnc l = true) ↔
      2 < n) ∧
    (∀ l ∈ (FUNC_aors_q SysvEm.fresh n (aorsOf b) false).lines, lineIsBranch l = false) := by
  obtain ⟨m, rfl⟩ : ∃ m, n = m + 1 := ⟨n - 1, by omega⟩
  have hp : (FUNC_aors_q SysvEm.fresh (m + 1) (aorsOf b) false).lines =
      aorsQPlainLines (aorsOf b) (m + 1) := by
    rw [aors_q_sysv_plain_char]
  have hnb : ∀ l ∈ aorsQPlainLines (aorsOf b) (m + 1), lineIsBranch l = false := by
    intro l hl
    unfold aorsQPlainLines at hl
    rcases List.mem_cons.mp hl with rfl | hl
    · cases b <;> rfl
    · rcases List.mem_append.mp hl with h3 | h3
      · rcases List.mem_flatMap.mp h3 with ⟨j, _, hl2⟩
        rcases List.mem_cons.mp hl2 with rfl | hl2
        · cases b <;> rfl
        · exact absurd hl2 (List.not_mem_nil l)
      · rcases List.mem_cons.mp h3 with rfl | h3
        · rfl
        · exact absurd h3 (List.not_mem_nil l)
  have hle : ¬2 < m + 1 →
      (FUNC_aors_q SysvEm.fresh (m + 1) (aorsOf b) true).lines =
        (FUNC_aors_q SysvEm.fresh (m + 1) (aorsOf b) false).lines := by
    intro h
    have hm : m = 0 ∨ m = 1 := by omega
    rcases hm with rfl | rfl
    · rfl
    · rfl
  have hgt : 2 < m + 1 →
      (FUNC_aors_q SysvEm.fresh (m + 1) (aorsOf b) true).lines =
        aorsQLeakyLines (aorsOf b) (m + 1) := by
    intro h
    have hk : m + 1 = (m - 2) + 3 := by omega
    rw [hk, aors_q_sysv_leaky_char]
  refine ⟨hp, hle, hgt, ?_, ?_⟩
  · constructor
    · rintro ⟨l, hl, hj⟩
      by_contra hn2
      rw [hle hn2, hp] at hl
      have := hnb l hl
      rw [lineIsJnc_branch l hj] at this
      exact absurd this (by decide)
    · intro h
      rw [hgt h]
      refine ⟨"jnc .L1", ?_, rfl⟩
      unfold aorsQLeakyLines
      refine List.mem_cons_of_mem _ (List.mem_append_left _ (List.mem_append_left _ ?_))
      refine List.mem_flatMap.mpr ⟨0, List.mem_range.mpr (by omega), ?_⟩
      simp
  · intro l hl
    rw [hp] at hl
    exact hnb l hl

/-- C7, witness: the leaky closed form at `n = 4`, and the jnc-iff at the
boundary `n = 2`. -/
theorem claim_c7_aors_q_branches_witness :
    (1 ≤ 4 ∧ (FUNC_aors_q SysvEm.fresh 4 AORS_ADD true).lines =
      aorsQLeakyLines AORS_ADD 4) ∧
    ¬(∃ l ∈ (FUNC_aors_q SysvEm.fresh 2 AORS_SUB true).lines, lineIsJnc l = true) :=
  ⟨⟨by decide, (claim_c7_aors_q_branches 4 (by decide) true).2.2.1 (by decide)⟩,
   fun h => absurd ((claim_c7_aors_q_branches 2 (by decide) false).2.2.2.1.mp h)
     (by decide)⟩

/-! ### C9 — purity and spelling of `PointerReg.displace` -/

/-- C9: `displace` is pure — it returns a new pointer operand sharing the
base register (the original is unchanged, the embedding being functional),
displacements compose additively, and a pointer operand spells as `(base)`
at displacement zero and as `8·k(base)` otherwise. -/
theorem claim_c9_pointer_displace (p : PointerReg) (j k : Int) :
    (p.displace j).reg = p.reg ∧
    (p.displace j).displace k = p.displace (j + k) ∧
    strPointerReg p =
      (if p.offset = 0 then "(" ++ strReg p.reg ++ ")"
       else intRepr (p.offset * 8) ++ "(" ++ strReg p.reg ++ ")") := by
  refine ⟨rfl, ?_, ?_⟩
  · unfold PointerReg.displace
    rw [add_assoc]
  · unfold strPointerReg
    by_cases h : p.offset = 0 <;> simp [h]

/-! ### C10 — sub-register spellings of the catalog -/

/-- C10: for every register index of the catalog, `e_part` and `l_part`
return the correct 32-bit and 8-bit x86-64 sub-register spellings. -/
theorem claim_c10_subregister_spellings :
    ((List.range 14).all (fun i =>
      Reg.e_part (.real i) == expected_e_parts.getD i "" &&
      Reg.l_part (.real i) == expected_l_parts.getD i "")) = true := by
  decide

/-! ### C5 — structure of the dumb word-shift lowering -/

/-- C5, counterexample: for `n = 2` the generated `shr_words` routine
(inline backend) contains `n = 2` gated cmov passes, not `n - 1 = 1`: the
extra zeroth pass is gated by a `testq` instruction, not by `cmpq $i`. -/
theorem claim_c5_pass_count_cex :
    gatesOf (shiftWordsRun 2 "right") = ["testq %[arg1], %[arg1]", "cmpq $1, %[arg1]"] ∧
    gatesOf (shiftWordsRun 2 "right") ≠ ["cmpq $1, %[arg1]"] := by
  refine ⟨by decide, by decide⟩

/-- C5, amended: for every `n ≤ 8` and both directions, the word-shift
routine generated for the inline backend consists of `n` conditional cmov
passes (the code invokes each pass with shift amount 1): pass 0 is gated by
`testq amount, amount` and pass `i` (`1 ≤ i ≤ n-1`) by `cmpq $i, amount`,
each gate is immediately followed by a `cmovaq`-conditioned move, and no
branch instruction is emitted. -/
theorem claim_c5_dumb_shift_structure :
    ([1, 2, 3, 4, 5, 6, 7, 8].all (fun n =>
      ["right", "left"].all (fun d => dumbShiftCheck n d))) = true := by
  decide

/-! ### C8 — CLI usage errors -/

/-- C8, counterexample: the width `"0"` is not a positive integer, yet
`main` accepts it — `int("0")` parses, the action is valid, and the program
proceeds instead of exiting with the usage error. -/
theorem claim_c8_width_zero_cex :
    mainModel ["gen_asm.py", "gen_c_header", "0"] = .run "gen_c_header" 0 none ∧
    pyIntParse "0" = some 0 ∧ ¬(0 : Int) > 0 := by
  refine ⟨by decide, by decide, by decide⟩

/-- C8, amended: the program exits with code 2 (after writing a usage
message to standard error, modelled by `MainResult.usage`) exactly when the
argument count is not 3 or 4, or the width does not parse as an integer
(positivity is not checked), or the action is unknown. -/
theorem claim_c8_usage_exit (argv : List String) :
    (∃ msg, mainModel argv = .usage msg) ↔
      (¬(argv.length = 3 ∨ argv.length = 4) ∨ pyIntParse (argv.getD 2 "") = none ∨
        ¬argv.getD 1 "" ∈ VALID_ACTIONS) := by
  unfold mainModel
  by_cases h1 : argv.length = 3 ∨ argv.length = 4
  · rw [if_neg (not_not_intro h1)]
    cases hp : pyIntParse (argv.getD 2 "")
    · simp [hp, h1]
    · dsimp only
      by_cases h2 : argv.getD 1 "" ∈ VALID_ACTIONS
      · rw [if_pos h2]
        simp [hp, h1]
        simpa using h2
      · rw [if_neg h2]
        simp [hp, h1]
        simpa using h2
  · rw [if_pos h1]
    simp [h1]

/-- C8, witness: the amended characterization applied to a concrete command
line with a non-numeric width. -/
theorem claim_c8_usage_exit_witness :
    ∃ msg, mainModel ["gen_asm.py", "gen_asm", "abc"] = MainResult.usage msg :=
  (claim_c8_usage_exit ["gen_asm.py", "gen_asm", "abc"]).mpr (by decide)

end Fiwia
